import Mathlib

/-!
Verification of the chapter/metadata core of the m4b audiobook generator
(`core/chapter_manager.py` and `core/m4b_creator.py`).

The Python code is shallowly embedded: strings are processed as `List Char`,
Python `int` is `Int`, Python `Optional[int]` is `Option Int`, and fallible
code returns `Except PyErr`.  Python character classes (`\s`, `\d`, case
folding) are modelled over ASCII, which is the domain the program works in.
-/

set_option autoImplicit false

namespace M4B

/-- Python whitespace class `\s` (ASCII part): space, tab, LF, CR, VT, FF. -/
def isPySpace (c : Char) : Bool :=
  c == ' ' || c == '\t' || c == '\n' || c == '\r' || c == '\x0b' || c == '\x0c'

/-- Decimal digit test, the ASCII `\d` class / `int()` digit set. -/
def isDigitChar (c : Char) : Bool :=
  '0' ≤ c && c ≤ '9'

/-- Numeric value of a decimal digit character. -/
def digitVal (c : Char) : Nat :=
  c.toNat - 48

/-- The decimal digit character for `n` (callers only use `n < 10`). -/
def digitChar (n : Nat) : Char :=
  if n = 0 then '0'
  else if n = 1 then '1'
  else if n = 2 then '2'
  else if n = 3 then '3'
  else if n = 4 then '4'
  else if n = 5 then '5'
  else if n = 6 then '6'
  else if n = 7 then '7'
  else if n = 8 then '8'
  else '9'

/-- Decimal digit string worker, structurally recursive on a fuel bound so
that it evaluates inside the kernel. -/
def natDigitsF : Nat → Nat → List Char
  | 0, _ => []
  | fuel + 1, n =>
    if n < 10 then [digitChar n]
    else natDigitsF fuel (n / 10) ++ [digitChar (n % 10)]

/-- Decimal digit string of `n`, most significant digit first. -/
def natDigits (n : Nat) : List Char :=
  natDigitsF (n + 1) n

/-- Zero-pad the decimal representation of `n` on the left to width `w`,
modelling Python `%0wd` formatting of a non-negative integer. -/
def zpadL (w : Nat) (n : Nat) : List Char :=
  List.replicate (w - (natDigits n).length) '0' ++ natDigits n

/-- Python `format(v, "0wd")` for an arbitrary integer: the sign comes first,
zeros are inserted between the sign and the digits. -/
def pyFmtZero (w : Nat) (v : Int) : List Char :=
  if v < 0 then '-' :: zpadL (w - 1) (-v).toNat else zpadL w v.toNat

/-- Python `str.split(sep)` for a single-character separator:
`"".split(sep) = [""]`, and every occurrence of `sep` splits. -/
def pySplit (sep : Char) : List Char → List (List Char)
  | [] => [[]]
  | c :: rest =>
    if c == sep then [] :: pySplit sep rest
    else
      match pySplit sep rest with
      | h :: t => (c :: h) :: t
      | [] => [[c]]

/-- Digit-run tail of a Python integer literal: after an initial digit,
further digits may be separated by single underscores. -/
def pyDigitsAux (l : List Char) (acc : Nat) : Option Nat :=
  match l with
  | [] => some acc
  | c :: rest =>
    if c == '_' then
      match rest with
      | c2 :: rest2 =>
        if isDigitChar c2 then pyDigitsAux rest2 (acc * 10 + digitVal c2) else none
      | [] => none
    else if isDigitChar c then pyDigitsAux rest (acc * 10 + digitVal c) else none

/-- An unsigned Python integer literal: a digit followed by digits with
optional single underscores between them. -/
def pyNatDigits (l : List Char) : Option Nat :=
  match l with
  | [] => none
  | c :: rest => if isDigitChar c then pyDigitsAux rest (digitVal c) else none

/-- Python `str.strip()`: remove leading and trailing whitespace. -/
def pyStripList (l : List Char) : List Char :=
  ((l.dropWhile isPySpace).reverse.dropWhile isPySpace).reverse

/-- Python `int(s)`: strip whitespace, optional sign, then digits with
optional underscores.  `none` models the `ValueError` raised by `int`. -/
def pyInt (l : List Char) : Option Int :=
  match pyStripList l with
  | [] => none
  | c :: rest =>
    if c == '+' then (pyNatDigits rest).map (fun n => (n : Int))
    else if c == '-' then (pyNatDigits rest).map (fun n => -(n : Int))
    else (pyNatDigits (c :: rest)).map (fun n => (n : Int))

/-- The distinct exception shapes `ChapterManager._parse_timestamp` can raise:
the explicit `ValueError` naming the whole input, the `ValueError` from a
failing `int(...)` conversion naming the failing literal, and the
`ValueError` from unpacking `time_str.split(".")` into two variables. -/
inductive PyErr where
  | formatError (msg : String)
  | intError (lit : String)
  | unpackError
deriving DecidableEq, Repr

/-- `ms_part.ljust(3, "0")[:3]`: right-pad with zeros to length 3, then keep
the first three characters. -/
def padTrunc3 (l : List Char) : List Char :=
  (l ++ List.replicate (3 - l.length) '0').take 3

/-- `int(...)` as an `Except`, recording the failing literal. -/
def pyIntE (l : List Char) : Except PyErr Int :=
  match pyInt l with
  | some v => Except.ok v
  | none => Except.error (PyErr.intError (String.mk l))

/-- `time_part, ms_part = time_str.split(".")` with
`ms = int(ms_part.ljust(3, "0")[:3])`: succeeds only on exactly two parts
(one dot); any other count raises the unpacking `ValueError`. -/
def fracOfParts : List (List Char) → Except PyErr (List Char × Int)
  | [tp, mp] =>
    match pyIntE (padTrunc3 mp) with
    | Except.ok v => Except.ok (tp, v)
    | Except.error e => Except.error e
  | _ => Except.error PyErr.unpackError

/-- The fractional-seconds prologue of `_parse_timestamp`: when the input
contains a dot, split at dots and take the millisecond value from the
second part; otherwise the whole input with 0 ms. -/
def splitFraction (cs : List Char) : Except PyErr (List Char × Int) :=
  if cs.contains '.' then fracOfParts (pySplit '.' cs)
  else Except.ok (cs, 0)

/-- The `len(parts)` dispatch of `_parse_timestamp`, applied to the
colon-split segments of the time part.  The `map(int, parts)` unpackings
evaluate the segments left to right, so the first non-numeric segment
determines the raised error. -/
def parseParts (time_str : String) (ms : Int) : List (List Char) → Except PyErr Int
  | [h, m, s] =>
    match pyIntE h with
    | Except.error e => Except.error e
    | Except.ok hv =>
      match pyIntE m with
      | Except.error e => Except.error e
      | Except.ok mv =>
        match pyIntE s with
        | Except.error e => Except.error e
        | Except.ok sv => Except.ok ((hv * 3600 + mv * 60 + sv) * 1000 + ms)
  | [m, s] =>
    match pyIntE m with
    | Except.error e => Except.error e
    | Except.ok mv =>
      match pyIntE s with
      | Except.error e => Except.error e
      | Except.ok sv => Except.ok ((mv * 60 + sv) * 1000 + ms)
  | [s] =>
    match pyIntE s with
    | Except.error e => Except.error e
    | Except.ok sv => Except.ok (sv * 1000 + ms)
  | _ => Except.error (PyErr.formatError ("Invalid timestamp format: " ++ time_str))

/-- `ChapterManager._parse_timestamp`: parse `HH:MM:SS`, `MM:SS` or `SS`,
optionally suffixed with fractional seconds, into milliseconds. -/
def parse_timestamp (time_str : String) : Except PyErr Int :=
  match splitFraction time_str.toList with
  | Except.error e => Except.error e
  | Except.ok (time_part, ms) => parseParts time_str ms (pySplit ':' time_part)

/-- `ChapterManager.format_timestamp`: milliseconds to `HH:MM:SS.mmm`.
Python `//` and `%` on ints are floor division and non-negative remainder;
for these positive divisors that is exactly Lean's `Int` `/` and `%`
(Euclidean division). -/
def format_timestamp (milliseconds : Int) : String :=
  let ms := milliseconds % 1000
  let total_seconds := milliseconds / 1000
  let hours := total_seconds / 3600
  let minutes := (total_seconds % 3600) / 60
  let seconds := total_seconds % 60
  String.mk (pyFmtZero 2 hours ++ ':' :: pyFmtZero 2 minutes ++
    ':' :: pyFmtZero 2 seconds ++ '.' :: pyFmtZero 3 ms)

/-! ### Title cleaning (`Chapter._clean_title`) -/

/-- The separator class `[\s\-_\.]` of the leading-number regex. -/
def isSepCls (c : Char) : Bool :=
  isPySpace c || c == '-' || c == '_' || c == '.'

/-- The recognized audio extensions, lower-cased, as 4-character suffixes. -/
def audio_exts : List (List Char) :=
  [['.', 'm', 'p', '3'], ['.', 'm', '4', 'a'], ['.', 'm', '4', 'b']]

/-- Does `l` end (at its very end) with a recognized audio extension,
case-insensitively? -/
def extMatchAt (l : List Char) : Bool :=
  decide (4 ≤ l.length) && audio_exts.contains ((l.drop (l.length - 4)).map Char.toLower)

/-- `re.search(r"\.(mp3|m4a|m4b)$", title, re.IGNORECASE)`: Python `$` matches
at the end of the string or just before a trailing newline. -/
def hasExtension (l : List Char) : Bool :=
  extMatchAt l || (l.getLast? == some '\n' && extMatchAt l.dropLast)

/-- `re.sub(r"\.(mp3|m4a|m4b)$", "", title, re.IGNORECASE)`: remove the
extension matched by `hasExtension` (keeping a trailing newline, if the
match was just before one). -/
def stripExtension (l : List Char) : List Char :=
  if extMatchAt l then l.take (l.length - 4)
  else if l.getLast? == some '\n' && extMatchAt l.dropLast then
    l.dropLast.take (l.length - 5) ++ ['\n']
  else l

/-- Case-insensitive literal match of `track` at the head, returning the rest. -/
def stripTrackCI (l : List Char) : Option (List Char) :=
  match l with
  | c1 :: c2 :: c3 :: c4 :: c5 :: rest =>
    if [c1, c2, c3, c4, c5].map Char.toLower == ['t', 'r', 'a', 'c', 'k'] then some rest
    else none
  | _ => none

/-- `\d+[\s\-_\.]+` at the head of `l` (greedy, which is deterministic here
because the two character classes are disjoint): returns the remainder. -/
def matchNumCore (l : List Char) : Option (List Char) :=
  if (l.takeWhile isDigitChar).isEmpty then none
  else
    let rest := l.dropWhile isDigitChar
    if (rest.takeWhile isSepCls).isEmpty then none
    else some (rest.dropWhile isSepCls)

/-- `re.match(r"^(track\s*)?\d+[\s\-_\.]+", title, re.IGNORECASE)`: the
optional `track\s*` group is tried first; if the rest of the pattern then
fails, the regex engine retries without the group. -/
def matchTrackNum (l : List Char) : Option (List Char) :=
  match stripTrackCI l with
  | some rest =>
    match matchNumCore (rest.dropWhile isPySpace) with
    | some r => some r
    | none => matchNumCore l
  | none => matchNumCore l

/-- Linear scan replacing each maximal run of characters satisfying `p` by
the single character `r`; `inRun` records whether the previous character
was part of a run. -/
def collapseAux (p : Char → Bool) (r : Char) : Bool → List Char → List Char
  | _, [] => []
  | inRun, c :: rest =>
    if p c then
      if inRun then collapseAux p r true rest
      else r :: collapseAux p r true rest
    else c :: collapseAux p r false rest

/-- Replace each maximal run of characters satisfying `p` by the single
character `r`, modelling `re.sub(class+, r, s)`. -/
def collapseRuns (p : Char → Bool) (r : Char) (l : List Char) : List Char :=
  collapseAux p r false l

/-- The unconditional light cleanup of `_clean_title` step 3: collapse
underscore runs to one space, collapse whitespace runs to one space, strip. -/
def lightCleanL (l : List Char) : List Char :=
  pyStripList (collapseRuns isPySpace ' ' (collapseRuns (fun c => c == '_') ' ' l))

/-- `Chapter._clean_title`: strip a recognized audio extension; if an
extension was present or the title begins with an optional `track` word,
digits and separators, strip that leading numeric label; always lightly
clean; if the result is empty, return the original title unchanged. -/
def clean_title (title : String) : String :=
  let l := title.toList
  let hasExt := hasExtension l
  let l1 := stripExtension l
  let l2 :=
    if hasExt || (matchTrackNum l1).isSome then
      match matchTrackNum l1 with
      | some r => r
      | none => l1
    else l1
  let result := lightCleanL l2
  if result.isEmpty then title else String.mk result

/-! ### Chapter and ChapterManager -/

/-- A chapter record (`Chapter` dataclass): title, start in milliseconds,
optional duration in milliseconds, optional source file path. -/
structure Chapter where
  title : String
  start_ms : Int
  duration_ms : Option Int
  file_path : Option String
deriving DecidableEq, Repr

/-- Constructing a `Chapter` runs `__post_init__`, which cleans the title. -/
def Chapter.make (title : String) (start_ms : Int) (duration_ms : Option Int)
    (file_path : Option String) : Chapter :=
  ⟨clean_title title, start_ms, duration_ms, file_path⟩

/-- Python truthiness of an `Optional[int]`: `None` and `0` are falsy. -/
def pyTruthyInt (o : Option Int) : Bool :=
  match o with
  | some d => d != 0
  | none => false

/-- `Chapter.to_ffmpeg_format`: one `[CHAPTER]` block; the end offset is
`start_ms + duration_ms` when `duration_ms` is truthy, else `start_ms`. -/
def to_ffmpeg_format (c : Chapter) : String :=
  let end_ms : Int :=
    match c.duration_ms with
    | some d => if d ≠ 0 then c.start_ms + d else c.start_ms
    | none => c.start_ms
  "[CHAPTER]\nTIMEBASE=1/1000\nSTART=" ++ toString c.start_ms ++
    "\nEND=" ++ toString end_ms ++ "\ntitle=" ++ c.title ++ "\n"

/-- The chapter model (`ChapterManager`): an insertion-ordered chapter list.
The `last_create_stats` counters are observational only and not modelled. -/
structure ChapterManager where
  chapters : List Chapter
deriving DecidableEq, Repr

/-- `ChapterManager.add_chapter`: append a newly constructed chapter. -/
def add_chapter (m : ChapterManager) (title : String) (start_ms : Int)
    (duration_ms : Option Int) (file_path : Option String) : ChapterManager :=
  ⟨m.chapters ++ [Chapter.make title start_ms duration_ms file_path]⟩

/-- `ChapterManager.remove_chapter`: delete at `index` when
`0 <= index < len(self.chapters)`, else do nothing. -/
def remove_chapter (m : ChapterManager) (index : Int) : ChapterManager :=
  if 0 ≤ index ∧ index < (m.chapters.length : Int) then
    ⟨m.chapters.eraseIdx index.toNat⟩
  else m

/-- Replace the element at position `i` by `f` applied to it. -/
def modifyAt {α : Type} (f : α → α) : Nat → List α → List α
  | _, [] => []
  | 0, a :: l => f a :: l
  | n + 1, a :: l => a :: modifyAt f n l

/-- `ChapterManager.update_chapter`: partial field update at `index` (no-op
when out of range); a provided title is re-cleaned, a provided start or
duration is stored as given. -/
def update_chapter (m : ChapterManager) (index : Int) (title : Option String)
    (start_ms : Option Int) (duration_ms : Option Int) : ChapterManager :=
  if 0 ≤ index ∧ index < (m.chapters.length : Int) then
    ⟨modifyAt (fun c =>
      let c := match title with
        | some t => { c with title := clean_title t }
        | none => c
      let c := match start_ms with
        | some s => { c with start_ms := s }
        | none => c
      match duration_ms with
      | some d => { c with duration_ms := some d }
      | none => c) index.toNat m.chapters⟩
  else m

/-- `ChapterManager.reorder_chapter`: `pop(from_index)` then
`insert(to_index, chapter)` when both indices are in range, else no-op. -/
def reorder_chapter (m : ChapterManager) (from_index to_index : Int) : ChapterManager :=
  if (0 ≤ from_index ∧ from_index < (m.chapters.length : Int)) ∧
      (0 ≤ to_index ∧ to_index < (m.chapters.length : Int)) then
    match m.chapters[from_index.toNat]? with
    | some c => ⟨(m.chapters.eraseIdx from_index.toNat).insertIdx to_index.toNat c⟩
    | none => m
  else m

/-- Insert `a` into the sorted list `l`, after every element `b` with
`le b a` — for a `≤`-style comparison this places a new element after all
elements with an equal key, which is the stable position. -/
def pySortInsert {α : Type} (le : α → α → Bool) (a : α) : List α → List α
  | [] => [a]
  | b :: l => if le b a then b :: pySortInsert le a l else a :: b :: l

/-- Python's stable `sorted` / `list.sort` with a key comparison: a stable
insertion sort (any two stable sorts agree, so this is extensionally
Timsort). -/
def pySort {α : Type} (le : α → α → Bool) (l : List α) : List α :=
  l.foldl (fun acc a => pySortInsert le a acc) []

/-- Assign durations as in the `create_from_timestamps` loop: each chapter
lasts until the next one starts; the last chapter's duration is unset. -/
def assignDurations : List (Int × String) → List Chapter
  | [] => []
  | [(s1, t1)] => [Chapter.make t1 s1 none none]
  | (s1, t1) :: (s2, t2) :: rest =>
    Chapter.make t1 s1 (some (s2 - s1)) none :: assignDurations ((s2, t2) :: rest)

/-- The parsing loop of `create_from_timestamps`: parse each pair in order,
propagating the first parse error. -/
def parseStamps : List (String × String) → Except PyErr (List (Int × String))
  | [] => Except.ok []
  | p :: rest =>
    match parse_timestamp p.1 with
    | Except.error e => Except.error e
    | Except.ok v =>
      match parseStamps rest with
      | Except.error e => Except.error e
      | Except.ok l => Except.ok ((v, p.2) :: l)

/-- `ChapterManager.create_from_timestamps`: clear the model, parse every
`(time string, title)` pair, stably sort the parsed pairs by start time,
then build the chapters.  The prior contents of the manager are discarded. -/
def create_from_timestamps (_m : ChapterManager) (timestamps : List (String × String)) :
    Except PyErr ChapterManager :=
  match parseStamps timestamps with
  | Except.error e => Except.error e
  | Except.ok parsed =>
    Except.ok ⟨assignDurations (pySort (fun a b => decide (a.1 ≤ b.1)) parsed)⟩

/-- `pattern.format(num=i)` for patterns whose only replacement field is the
`\x7bnum\x7d` placeholder: every occurrence is replaced by `num`. -/
def pyFormatNum (pattern : List Char) (num : List Char) : List Char :=
  match pattern with
  | '\x7b' :: 'n' :: 'u' :: 'm' :: '\x7d' :: rest => num ++ pyFormatNum rest num
  | c :: rest => c :: pyFormatNum rest num
  | [] => []

/-- `ChapterManager.auto_name_chapters`: assign `pattern.format(num=i)`
(1-based) to every chapter, in insertion order.  Note the assignment is
direct and does not go through `_clean_title`. -/
def auto_name_chapters (m : ChapterManager) (pattern : String) : ChapterManager :=
  ⟨m.chapters.enum.map (fun ic =>
    { ic.2 with title := String.mk (pyFormatNum pattern.toList (toString (ic.1 + 1)).toList) })⟩

/-- `ChapterManager.to_ffmpeg_metadata`: empty string for an empty model,
else the `;FFMETADATA1` header followed by the concatenated chapter blocks. -/
def to_ffmpeg_metadata (m : ChapterManager) : String :=
  if m.chapters.isEmpty then ""
  else ";FFMETADATA1\n" ++ String.join (m.chapters.map to_ffmpeg_format)

/-- The overlap warning emitted by `validate`. -/
def overlap_msg (a b : Chapter) : String :=
  "Chapters \x27" ++ a.title ++ "\x27 and \x27" ++ b.title ++ "\x27 overlap"

/-- The overlap scan of `validate` over the sorted copy: for each adjacent
pair, when the earlier duration is truthy and `start + duration` exceeds the
later start, emit one warning. -/
def overlap_warnings : List Chapter → List String
  | a :: b :: rest =>
    (if pyTruthyInt a.duration_ms then
      (if a.start_ms + a.duration_ms.getD 0 > b.start_ms then [overlap_msg a b] else [])
    else []) ++ overlap_warnings (b :: rest)
  | _ => []

/-- `ChapterManager.validate`: the empty-model warning short-circuits;
otherwise empty-title warnings, then negative start/duration warnings, then
overlap warnings over a copy sorted by `start_ms`.  It is a pure function of
the model: it neither raises nor mutates (the sort is on a copy). -/
def validate (m : ChapterManager) : List String :=
  if m.chapters.isEmpty then ["No chapters defined"]
  else
    let empty_warnings := m.chapters.enum.filterMap (fun ic =>
      if (pyStripList ic.2.title.toList).isEmpty then
        some ("Chapter " ++ toString (ic.1 + 1) ++ " has empty title")
      else none)
    let time_warnings := m.chapters.enum.flatMap (fun ic =>
      (if ic.2.start_ms < 0 then
        ["Chapter " ++ toString (ic.1 + 1) ++ " has negative start time"] else []) ++
      (match ic.2.duration_ms with
       | some d =>
         if d < 0 then ["Chapter " ++ toString (ic.1 + 1) ++ " has negative duration"] else []
       | none => []))
    let sorted_chapters := pySort (fun a b => decide (a.start_ms ≤ b.start_ms)) m.chapters
    empty_warnings ++ time_warnings ++ overlap_warnings sorted_chapters

/-- `M4BCreator._format_chapter_mdta`: the Android-compatibility tag string
`Menu <n># _<HH>_<MM>_<SS>_<mmm>: <title>`. -/
def format_chapter_mdta (chapter_num : Int) (chapter : Chapter) : String :=
  let total_ms := chapter.start_ms
  let milliseconds := total_ms % 1000
  let total_seconds := total_ms / 1000
  let hours := total_seconds / 3600
  let minutes := (total_seconds % 3600) / 60
  let seconds := total_seconds % 60
  "Menu " ++ toString chapter_num ++ "# _" ++ String.mk (pyFmtZero 2 hours) ++
    "_" ++ String.mk (pyFmtZero 2 minutes) ++ "_" ++ String.mk (pyFmtZero 2 seconds) ++
    "_" ++ String.mk (pyFmtZero 3 milliseconds) ++ ": " ++ chapter.title

/-! ### Lemmas: decimal digits and Python integer literals -/

/-- A decimal digit character, which is none of the structural characters
the timestamp codec treats specially. -/
def GoodDigit (c : Char) : Prop :=
  isDigitChar c = true ∧ c ≠ '.' ∧ c ≠ ':' ∧ isPySpace c = false ∧
    c ≠ '+' ∧ c ≠ '-' ∧ c ≠ '_'

instance (c : Char) : Decidable (GoodDigit c) := by
  unfold GoodDigit; infer_instance

theorem digitChar_mem (d : Nat) :
    digitChar d ∈ ['0', '1', '2', '3', '4', '5', '6', '7', '8', '9'] := by
  unfold digitChar
  repeat' split
  all_goals simp

theorem goodDigit_digitChar (d : Nat) : GoodDigit (digitChar d) := by
  have h := digitChar_mem d
  simp only [List.mem_cons, List.not_mem_nil, or_false] at h
  rcases h with h | h | h | h | h | h | h | h | h | h <;> rw [h] <;> decide

theorem digitVal_digitChar {d : Nat} (h : d < 10) : digitVal (digitChar d) = d := by
  interval_cases d <;> decide

theorem natDigitsF_congr : ∀ (f1 f2 n : Nat), n < f1 → n < f2 →
    natDigitsF f1 n = natDigitsF f2 n := by
  intro f1
  induction f1 with
  | zero => omega
  | succ f1 ih =>
    intro f2 n h1 h2
    cases f2 with
    | zero => omega
    | succ f2 =>
      simp only [natDigitsF]
      by_cases h : n < 10
      · simp [h]
      · simp only [h, if_false]
        rw [ih f2 (n / 10) (by omega) (by omega)]

theorem natDigits_eq_lt {n : Nat} (h : n < 10) : natDigits n = [digitChar n] := by
  unfold natDigits
  simp [natDigitsF, h]

theorem natDigits_eq_ge {n : Nat} (h : ¬ n < 10) :
    natDigits n = natDigits (n / 10) ++ [digitChar (n % 10)] := by
  unfold natDigits
  have h1 : natDigitsF (n + 1) n = natDigitsF n (n / 10) ++ [digitChar (n % 10)] := by
    simp [natDigitsF, h]
  rw [h1, natDigitsF_congr n (n / 10 + 1) (n / 10) (by omega) (by omega)]

theorem natDigits_ne_nil (n : Nat) : natDigits n ≠ [] := by
  by_cases h : n < 10
  · rw [natDigits_eq_lt h]; simp
  · rw [natDigits_eq_ge h]; simp

theorem natDigits_good (n : Nat) : ∀ c ∈ natDigits n, GoodDigit c := by
  induction n using Nat.strong_induction_on with
  | _ n ih =>
    by_cases h : n < 10
    · rw [natDigits_eq_lt h]
      intro c hc
      simp at hc
      subst hc
      exact goodDigit_digitChar n
    · rw [natDigits_eq_ge h]
      intro c hc
      rcases List.mem_append.mp hc with hc | hc
      · exact ih (n / 10) (Nat.div_lt_self (by omega) (by omega)) c hc
      · simp at hc
        subst hc
        exact goodDigit_digitChar _

/-- One decimal accumulation step. -/
def accDigit (a : Nat) (c : Char) : Nat :=
  a * 10 + digitVal c

theorem natDigits_foldl (n : Nat) :
    ∀ acc, (natDigits n).foldl accDigit acc = acc * 10 ^ (natDigits n).length + n := by
  induction n using Nat.strong_induction_on with
  | _ n ih =>
    intro acc
    by_cases h : n < 10
    · rw [natDigits_eq_lt h]
      simp [accDigit, digitVal_digitChar h]
    · rw [natDigits_eq_ge h, List.foldl_append,
        ih (n / 10) (Nat.div_lt_self (by omega) (by omega)) acc]
      simp only [List.foldl_cons, List.foldl_nil, List.length_append,
        List.length_cons, List.length_nil]
      rw [accDigit, digitVal_digitChar (Nat.mod_lt n (by omega))]
      generalize (natDigits (n / 10)).length = L
      have h1 : (acc * 10 ^ L + n / 10) * 10 + n % 10 =
          acc * 10 ^ L * 10 + (n / 10 * 10 + n % 10) := by ring
      have h2 : n / 10 * 10 + n % 10 = n := by omega
      have h3 : L + (0 + 1) = L + 1 := by omega
      rw [h1, h2, h3, Nat.pow_succ]
      ring

theorem pyDigitsAux_digits {l : List Char} (h : ∀ c ∈ l, GoodDigit c) :
    ∀ acc, pyDigitsAux l acc = some (l.foldl accDigit acc) := by
  induction l with
  | nil => intro acc; rfl
  | cons c rest ih =>
    intro acc
    have hc := h c (List.mem_cons_self c rest)
    have hrest : ∀ x ∈ rest, GoodDigit x := fun x hx => h x (List.mem_cons_of_mem c hx)
    have hu : (c == '_') = false := by
      simp only [beq_eq_false_iff_ne, ne_eq]
      exact hc.2.2.2.2.2.2
    unfold pyDigitsAux
    simp only [hu, Bool.false_eq_true, if_false, hc.1, if_true, List.foldl_cons]
    exact ih hrest (accDigit acc c)

theorem pyNatDigits_digits {l : List Char} (h : ∀ c ∈ l, GoodDigit c) (hne : l ≠ []) :
    pyNatDigits l = some (l.foldl accDigit 0) := by
  match l, hne with
  | c :: rest, _ =>
    have hc := h c (List.mem_cons_self c rest)
    have hrest : ∀ x ∈ rest, GoodDigit x := fun x hx => h x (List.mem_cons_of_mem c hx)
    unfold pyNatDigits
    simp only [hc.1, if_true, List.foldl_cons]
    rw [pyDigitsAux_digits hrest]
    simp [accDigit]

theorem foldl_replicate_zero (k : Nat) :
    ∀ acc, (List.replicate k '0').foldl accDigit acc = acc * 10 ^ k := by
  induction k with
  | zero => simp
  | succ k ih =>
    intro acc
    rw [List.replicate_succ, List.foldl_cons, ih]
    have : accDigit acc '0' = acc * 10 := by simp [accDigit, digitVal]
    rw [this, Nat.pow_succ]
    ring

theorem zpadL_good (w n : Nat) : ∀ c ∈ zpadL w n, GoodDigit c := by
  intro c hc
  unfold zpadL at hc
  rcases List.mem_append.mp hc with hc | hc
  · have := List.eq_of_mem_replicate hc
    subst this
    decide
  · exact natDigits_good n c hc

theorem zpadL_ne_nil (w n : Nat) : zpadL w n ≠ [] := by
  unfold zpadL
  simp [natDigits_ne_nil n]

theorem zpadL_foldl (w n : Nat) : (zpadL w n).foldl accDigit 0 = n := by
  unfold zpadL
  rw [List.foldl_append, foldl_replicate_zero, Nat.zero_mul, natDigits_foldl]
  simp

theorem dropWhile_eq_self_of {p : Char → Bool} {l : List Char}
    (h : ∀ c ∈ l, p c = false) : l.dropWhile p = l := by
  cases l with
  | nil => rfl
  | cons c rest =>
    rw [List.dropWhile_cons]
    simp [h c (List.mem_cons_self c rest)]

theorem pyStrip_of_no_space {l : List Char} (h : ∀ c ∈ l, isPySpace c = false) :
    pyStripList l = l := by
  unfold pyStripList
  rw [dropWhile_eq_self_of h]
  rw [dropWhile_eq_self_of (fun c hc => h c (List.mem_reverse.mp hc))]
  exact List.reverse_reverse l

theorem pyInt_zpadL (w n : Nat) : pyInt (zpadL w n) = some (n : Int) := by
  unfold pyInt
  rw [pyStrip_of_no_space (fun c hc => (zpadL_good w n c hc).2.2.2.1)]
  rcases hz : zpadL w n with _ | ⟨c, rest⟩
  · exact absurd hz (zpadL_ne_nil w n)
  · have hc : GoodDigit c := zpadL_good w n c (by rw [hz]; exact List.mem_cons_self c rest)
    have hplus : (c == '+') = false := by
      simp only [beq_eq_false_iff_ne, ne_eq]; exact hc.2.2.2.2.1
    have hminus : (c == '-') = false := by
      simp only [beq_eq_false_iff_ne, ne_eq]; exact hc.2.2.2.2.2.1
    simp only [hplus, hminus, Bool.false_eq_true, if_false]
    rw [← hz, pyNatDigits_digits (zpadL_good w n) (zpadL_ne_nil w n), zpadL_foldl]
    rfl

/-! ### Lemmas: `pySplit` -/

theorem pySplit_cons (sep c : Char) (rest : List Char) :
    pySplit sep (c :: rest) =
      if c == sep then [] :: pySplit sep rest
      else
        match pySplit sep rest with
        | h :: t => (c :: h) :: t
        | [] => [[c]] := rfl

theorem pySplit_no_sep {sep : Char} {l : List Char} (h : ∀ c ∈ l, c ≠ sep) :
    pySplit sep l = [l] := by
  induction l with
  | nil => rfl
  | cons c rest ih =>
    have hc : (c == sep) = false := by
      simp only [beq_eq_false_iff_ne, ne_eq]
      exact h c (List.mem_cons_self c rest)
    rw [pySplit_cons, hc]
    simp only [Bool.false_eq_true, if_false]
    rw [ih (fun x hx => h x (List.mem_cons_of_mem c hx))]

theorem pySplit_append {sep : Char} (l1 l2 : List Char) (h : ∀ c ∈ l1, c ≠ sep) :
    pySplit sep (l1 ++ sep :: l2) = l1 :: pySplit sep l2 := by
  induction l1 with
  | nil =>
    simp only [List.nil_append]
    rw [pySplit_cons]
    simp
  | cons c rest ih =>
    have hc : (c == sep) = false := by
      simp only [beq_eq_false_iff_ne, ne_eq]
      exact h c (List.mem_cons_self c rest)
    simp only [List.cons_append]
    rw [pySplit_cons, hc]
    simp only [Bool.false_eq_true, if_false]
    rw [ih (fun x hx => h x (List.mem_cons_of_mem c hx))]

theorem contains_of_mem {l : List Char} {a : Char} (h : a ∈ l) : l.contains a = true := by
  simp [List.contains, List.elem_eq_mem, h]

/-! ### Lemmas: the timestamp codec round trip (claim C1) -/

theorem natDigits_length_le : ∀ (k n : Nat), 1 ≤ k → n < 10 ^ k → (natDigits n).length ≤ k := by
  intro k
  induction k with
  | zero => omega
  | succ k ih =>
    intro n _ hn
    by_cases h : n < 10
    · rw [natDigits_eq_lt h]
      simp
    · have hk : 1 ≤ k := by
        by_contra hk0
        have : k = 0 := by omega
        subst this
        simp at hn
        omega
      rw [natDigits_eq_ge h]
      simp only [List.length_append, List.length_cons, List.length_nil]
      have hdiv : n / 10 < 10 ^ k := by
        have h10 : n < 10 ^ k * 10 := by
          rw [← Nat.pow_succ]
          exact hn
        generalize hP : (10 : Nat) ^ k = P at *
        omega
      have := ih (n / 10) hk hdiv
      omega

theorem zpadL_length {w n : Nat} (h : (natDigits n).length ≤ w) : (zpadL w n).length = w := by
  unfold zpadL
  simp only [List.length_append, List.length_replicate]
  omega

theorem padTrunc3_len3 {l : List Char} (h : l.length = 3) : padTrunc3 l = l := by
  unfold padTrunc3
  rw [h]
  simp only [Nat.sub_self, List.replicate_zero, List.append_nil]
  exact List.take_of_length_le (le_of_eq h)

theorem pyIntE_zpadL (w n : Nat) : pyIntE (zpadL w n) = Except.ok (n : Int) := by
  unfold pyIntE
  rw [pyInt_zpadL]

/-- The canonical rendered character list of a timestamp, fields already
computed:  `HH:MM:SS.mmm` with the fields zero-padded to widths 2/2/2/3. -/
def timeChars (H M S R : Nat) : List Char :=
  zpadL 2 H ++ (':' :: (zpadL 2 M ++ (':' :: (zpadL 2 S ++ ('.' :: zpadL 3 R)))))

theorem format_timestamp_nat (n : Nat) :
    format_timestamp (n : Int) =
      String.mk (timeChars (n / 3600000) (n % 3600000 / 60000) (n % 60000 / 1000)
        (n % 1000)) := by
  have hms : (n : Int) % 1000 = ((n % 1000 : Nat) : Int) := by omega
  have hts : (n : Int) / 1000 = ((n / 1000 : Nat) : Int) := by omega
  have hh : ((n / 1000 : Nat) : Int) / 3600 = ((n / 3600000 : Nat) : Int) := by omega
  have hm : (((n / 1000 : Nat) : Int) % 3600) / 60 =
      ((n % 3600000 / 60000 : Nat) : Int) := by omega
  have hs : ((n / 1000 : Nat) : Int) % 60 = ((n % 60000 / 1000 : Nat) : Int) := by omega
  simp only [format_timestamp, pyFmtZero]
  rw [hts, hh, hm, hs, hms]
  have hnonneg : ∀ k : Nat, ¬ ((k : Int) < 0) := fun k => by omega
  rw [if_neg (hnonneg _), if_neg (hnonneg _), if_neg (hnonneg _), if_neg (hnonneg _)]
  simp only [Int.toNat_ofNat, timeChars]
  congr 1
  simp [List.append_assoc]

theorem timeChars_split_dot (H M S R : Nat) :
    timeChars H M S R =
      (zpadL 2 H ++ (':' :: (zpadL 2 M ++ (':' :: zpadL 2 S)))) ++ ('.' :: zpadL 3 R) := by
  unfold timeChars
  simp [List.append_assoc]

theorem parse_format_roundtrip (n : Nat) :
    parse_timestamp (format_timestamp (n : Int)) = Except.ok (n : Int) := by
  rw [format_timestamp_nat, timeChars_split_dot]
  -- names for the four fields
  set H := n / 3600000 with hHdef
  set M := n % 3600000 / 60000 with hMdef
  set S := n % 60000 / 1000 with hSdef
  set R := n % 1000 with hRdef
  have hA_nodot : ∀ c ∈ zpadL 2 H ++ (':' :: (zpadL 2 M ++ (':' :: zpadL 2 S))),
      c ≠ '.' := by
    intro c hc
    rcases List.mem_append.mp hc with h1 | h1
    · exact (zpadL_good 2 H c h1).2.1
    · rcases List.mem_cons.mp h1 with h2 | h2
      · rw [h2]; decide
      · rcases List.mem_append.mp h2 with h3 | h3
        · exact (zpadL_good 2 M c h3).2.1
        · rcases List.mem_cons.mp h3 with h4 | h4
          · rw [h4]; decide
          · exact (zpadL_good 2 S c h4).2.1
  have htl : (String.mk ((zpadL 2 H ++ (':' :: (zpadL 2 M ++ (':' :: zpadL 2 S)))) ++
      ('.' :: zpadL 3 R))).toList =
      (zpadL 2 H ++ (':' :: (zpadL 2 M ++ (':' :: zpadL 2 S)))) ++ ('.' :: zpadL 3 R) := rfl
  have hRlen : (zpadL 3 R).length = 3 := by
    apply zpadL_length
    apply natDigits_length_le 3 R (by omega)
    have : R < 1000 := by omega
    omega
  have hcont : (((zpadL 2 H ++ (':' :: (zpadL 2 M ++ (':' :: zpadL 2 S)))) ++
      ('.' :: zpadL 3 R)).contains '.') = true :=
    contains_of_mem (by simp)
  have hpa : pySplit '.' ((zpadL 2 H ++ (':' :: (zpadL 2 M ++ (':' :: zpadL 2 S)))) ++
      ('.' :: zpadL 3 R)) =
      [zpadL 2 H ++ (':' :: (zpadL 2 M ++ (':' :: zpadL 2 S))), zpadL 3 R] := by
    rw [pySplit_append _ _ hA_nodot]
    rw [pySplit_no_sep (fun c hc => (zpadL_good 3 R c hc).2.1)]
  have hsf : splitFraction ((zpadL 2 H ++ (':' :: (zpadL 2 M ++ (':' :: zpadL 2 S)))) ++
      ('.' :: zpadL 3 R)) =
      Except.ok (zpadL 2 H ++ (':' :: (zpadL 2 M ++ (':' :: zpadL 2 S))), (R : Int)) := by
    simp only [splitFraction, hcont, if_true, hpa, fracOfParts,
      padTrunc3_len3 hRlen, pyIntE_zpadL]
  have hsplit : pySplit ':' (zpadL 2 H ++ (':' :: (zpadL 2 M ++ (':' :: zpadL 2 S)))) =
      [zpadL 2 H, zpadL 2 M, zpadL 2 S] := by
    rw [pySplit_append _ _ (fun c hc => (zpadL_good 2 H c hc).2.2.1)]
    rw [pySplit_append _ _ (fun c hc => (zpadL_good 2 M c hc).2.2.1)]
    rw [pySplit_no_sep (fun c hc => (zpadL_good 2 S c hc).2.2.1)]
  simp only [parse_timestamp, htl, hsf, hsplit, parseParts, pyIntE_zpadL]
  congr 1
  omega

/-! ### Lemmas: which error `_parse_timestamp` raises (claim C8) -/

/-- Is the result the explicit `ValueError("Invalid timestamp format: ...")`
(as opposed to an `int()` conversion error or the unpacking error)? -/
def isFormatError : Except PyErr Int → Bool
  | Except.error (PyErr.formatError _) => true
  | _ => false

theorem pySplit_ne_nil (sep : Char) (l : List Char) : pySplit sep l ≠ [] := by
  induction l with
  | nil => simp [pySplit]
  | cons c rest ih =>
    rw [pySplit_cons]
    split
    · simp
    · split <;> simp

theorem pyIntE_cases (l : List Char) :
    (∃ v, pyIntE l = Except.ok v ∧ pyInt l = some v) ∨
      (pyIntE l = Except.error (PyErr.intError (String.mk l)) ∧ pyInt l = none) := by
  unfold pyIntE
  rcases h : pyInt l with _ | v
  · right
    simp
  · left
    exact ⟨v, by simp, rfl⟩

theorem splitFraction_ne_formatError (cs : List Char) (msg : String) :
    splitFraction cs ≠ Except.error (PyErr.formatError msg) := by
  unfold splitFraction
  split
  · rcases h : pySplit '.' cs with _ | ⟨a, _ | ⟨b, rest⟩⟩
    · simp [fracOfParts]
    · simp [fracOfParts]
    · rcases rest with _ | ⟨c, rest2⟩
      · rcases pyIntE_cases (padTrunc3 b) with ⟨v, hv, _⟩ | ⟨hv, _⟩ <;>
          simp [fracOfParts, hv]
      · simp [fracOfParts]
  · simp

theorem parseParts_formatError_of_long (ts : String) (ms : Int) {ps : List (List Char)}
    (h : 4 ≤ ps.length) :
    parseParts ts ms ps =
      Except.error (PyErr.formatError ("Invalid timestamp format: " ++ ts)) := by
  rcases ps with _ | ⟨a, _ | ⟨b, _ | ⟨c, _ | ⟨d, rest⟩⟩⟩⟩
  · simp at h
  · simp at h
  · simp at h
  · simp at h
  · rfl

theorem parseParts_not_formatError_of_short (ts : String) (ms : Int) {ps : List (List Char)}
    (h1 : ps ≠ []) (h2 : ps.length ≤ 3) :
    isFormatError (parseParts ts ms ps) = false := by
  rcases ps with _ | ⟨a, _ | ⟨b, _ | ⟨c, _ | ⟨d, rest⟩⟩⟩⟩
  · exact absurd rfl h1
  · rcases pyIntE_cases a with ⟨v, hv, _⟩ | ⟨hv, _⟩ <;>
      simp [parseParts, hv, isFormatError]
  · rcases pyIntE_cases a with ⟨v, hv, _⟩ | ⟨hv, _⟩
    · rcases pyIntE_cases b with ⟨w, hw, _⟩ | ⟨hw, _⟩ <;>
        simp [parseParts, hv, hw, isFormatError]
    · simp [parseParts, hv, isFormatError]
  · rcases pyIntE_cases a with ⟨v, hv, _⟩ | ⟨hv, _⟩
    · rcases pyIntE_cases b with ⟨w, hw, _⟩ | ⟨hw, _⟩
      · rcases pyIntE_cases c with ⟨u, hu, _⟩ | ⟨hu, _⟩ <;>
          simp [parseParts, hv, hw, hu, isFormatError]
      · simp [parseParts, hv, hw, isFormatError]
    · simp [parseParts, hv, isFormatError]
  · simp at h2

theorem parseParts_ok_segments (ts : String) (ms : Int) {ps : List (List Char)} {v : Int}
    (h : parseParts ts ms ps = Except.ok v) :
    1 ≤ ps.length ∧ ps.length ≤ 3 ∧ ∀ seg ∈ ps, (pyInt seg).isSome = true := by
  rcases ps with _ | ⟨a, _ | ⟨b, _ | ⟨c, _ | ⟨d, rest⟩⟩⟩⟩
  · simp [parseParts] at h
  · rcases pyIntE_cases a with ⟨w, hw, hw2⟩ | ⟨hw, _⟩
    · refine ⟨by simp, by simp, ?_⟩
      intro seg hseg
      simp at hseg
      subst hseg
      simp [hw2]
    · simp [parseParts, hw] at h
  · rcases pyIntE_cases a with ⟨w, hw, hw2⟩ | ⟨hw, _⟩
    · rcases pyIntE_cases b with ⟨u, hu, hu2⟩ | ⟨hu, _⟩
      · refine ⟨by simp, by simp, ?_⟩
        intro seg hseg
        simp at hseg
        rcases hseg with hseg | hseg <;> subst hseg <;> simp [hw2, hu2]
      · simp [parseParts, hw, hu] at h
    · simp [parseParts, hw] at h
  · rcases pyIntE_cases a with ⟨w, hw, hw2⟩ | ⟨hw, _⟩
    · rcases pyIntE_cases b with ⟨u, hu, hu2⟩ | ⟨hu, _⟩
      · rcases pyIntE_cases c with ⟨t, ht, ht2⟩ | ⟨ht, _⟩
        · refine ⟨by simp, by simp, ?_⟩
          intro seg hseg
          simp at hseg
          rcases hseg with hseg | hseg | hseg <;> subst hseg <;> simp [hw2, hu2, ht2]
        · simp [parseParts, hw, hu, ht] at h
      · simp [parseParts, hw, hu] at h
    · simp [parseParts, hw] at h
  · simp [parseParts] at h

theorem parse_ok_segments {s : String} {v : Int} (h : parse_timestamp s = Except.ok v) :
    ∃ tp ms, splitFraction s.toList = Except.ok (tp, ms) ∧
      1 ≤ (pySplit ':' tp).length ∧ (pySplit ':' tp).length ≤ 3 ∧
      ∀ seg ∈ pySplit ':' tp, (pyInt seg).isSome = true := by
  unfold parse_timestamp at h
  rcases hsf : splitFraction s.toList with e | ⟨tp, ms⟩
  · rw [hsf] at h
    simp at h
  · rw [hsf] at h
    have h' : parseParts s ms (pySplit ':' tp) = Except.ok v := h
    exact ⟨tp, ms, rfl, parseParts_ok_segments s ms h'⟩

theorem parse_formatError_iff (s : String) :
    isFormatError (parse_timestamp s) = true ↔
      ∃ tp ms, splitFraction s.toList = Except.ok (tp, ms) ∧
        4 ≤ (pySplit ':' tp).length := by
  constructor
  · intro h
    unfold parse_timestamp at h
    rcases hsf : splitFraction s.toList with e | ⟨tp, ms⟩
    · rw [hsf] at h
      rcases e with msg | lit | _
      · exact absurd hsf (splitFraction_ne_formatError s.toList msg)
      · simp [isFormatError] at h
      · simp [isFormatError] at h
    · rw [hsf] at h
      refine ⟨tp, ms, rfl, ?_⟩
      by_contra hlen
      have h' : isFormatError (parseParts s ms (pySplit ':' tp)) = true := h
      rw [parseParts_not_formatError_of_short s ms (pySplit_ne_nil ':' tp)
        (by omega)] at h'
      exact absurd h' (by simp)
  · rintro ⟨tp, ms, hsf, hlen⟩
    unfold parse_timestamp
    rw [hsf]
    show isFormatError (parseParts s ms (pySplit ':' tp)) = true
    rw [parseParts_formatError_of_long s ms hlen]
    rfl

theorem parse_formatError_msg {s : String} (h : isFormatError (parse_timestamp s) = true) :
    parse_timestamp s =
      Except.error (PyErr.formatError ("Invalid timestamp format: " ++ s)) := by
  obtain ⟨tp, ms, hsf, hlen⟩ := (parse_formatError_iff s).mp h
  unfold parse_timestamp
  rw [hsf]
  exact parseParts_formatError_of_long s ms hlen

/-! ### Claim C1 -/

/-- C1: for every non-negative integer `ms`, parsing the formatted timestamp
returns the original value (`_parse_timestamp (format_timestamp ms) = ms`),
and `format_timestamp` emits the zero-padded form `HH:MM:SS.mmm` of the
canonical hour/minute/second/millisecond decomposition of `ms` (each field
zero-padded to width 2, milliseconds to width 3). -/
theorem claim_C1 (ms : Nat) :
    parse_timestamp (format_timestamp (ms : Int)) = Except.ok (ms : Int) ∧
    format_timestamp (ms : Int) =
      String.mk (timeChars (ms / 3600000) (ms % 3600000 / 60000) (ms % 60000 / 1000)
        (ms % 1000)) :=
  ⟨parse_format_roundtrip ms, format_timestamp_nat ms⟩

/-! ### Claim C8 -/

/-- C8 counterexample: on the invalid input `"1.2.3"` (a single colon
segment that is not numeric — `int` rejects it — so the claim requires the
distinct `FormatError` naming the input) the code instead raises the
`ValueError` from unpacking `"1.2.3".split(".")` into two variables, which
is not the distinct format error and names nothing. -/
theorem claim_C8_counterexample :
    parse_timestamp "1.2.3" = Except.error PyErr.unpackError ∧
    isFormatError (parse_timestamp "1.2.3") = false ∧
    (pySplit ':' "1.2.3".toList).length = 1 ∧
    pyInt "1.2.3".toList = none := by
  refine ⟨?_, ?_, ?_, ?_⟩ <;> rfl

/-- C8 (amended): the distinct `FormatError` naming the whole input is
raised exactly when the fractional prologue succeeds and the colon-segment
count of the time part is at least 4, and it then carries the message
`Invalid timestamp format: <input>`; other invalid inputs raise a different
error (an `int()` conversion error, or an unpacking error when the dot
count is not one); parsing never returns a value unless the time part had
1–3 colon segments, every one of them accepted by `int()`. -/
theorem claim_C8 (s : String) :
    (isFormatError (parse_timestamp s) = true ↔
      ∃ tp ms, splitFraction s.toList = Except.ok (tp, ms) ∧
        4 ≤ (pySplit ':' tp).length) ∧
    (isFormatError (parse_timestamp s) = true →
      parse_timestamp s =
        Except.error (PyErr.formatError ("Invalid timestamp format: " ++ s))) ∧
    (∀ v, parse_timestamp s = Except.ok v →
      ∃ tp ms, splitFraction s.toList = Except.ok (tp, ms) ∧
        1 ≤ (pySplit ':' tp).length ∧ (pySplit ':' tp).length ≤ 3 ∧
        ∀ seg ∈ pySplit ':' tp, (pyInt seg).isSome = true) :=
  ⟨parse_formatError_iff s,
   fun h => parse_formatError_msg h,
   fun _ h => parse_ok_segments h⟩

/-- C8 witness: at the concrete input `"1:2:3:4"` (four colon segments) the
parser raises the distinct named `FormatError`. -/
theorem claim_C8_witness :
    parse_timestamp "1:2:3:4" =
      Except.error (PyErr.formatError "Invalid timestamp format: 1:2:3:4") := by
  have h : isFormatError (parse_timestamp "1:2:3:4") = true :=
    (claim_C8 "1:2:3:4").1.mpr ⟨"1:2:3:4".toList, 0, rfl, by rfl⟩
  exact (claim_C8 "1:2:3:4").2.1 h

/-! ### Claim C2 -/

/-- C2 counterexample: the title `"_"` is gated (no extension, no leading
numeric label), yet `_clean_title` does not return the light cleanup — the
light cleanup collapses `"_"` to a space and trims it to the empty string,
so the original title is returned unchanged instead. -/
theorem claim_C2_counterexample :
    hasExtension "_".toList = false ∧
    matchTrackNum "_".toList = none ∧
    String.mk (lightCleanL "_".toList) = "" ∧
    clean_title "_" = "_" ∧
    clean_title "_" ≠ String.mk (lightCleanL "_".toList) := by
  refine ⟨rfl, rfl, rfl, rfl, by decide⟩

/-- C2 (amended): for every title with no recognized audio extension and no
leading `track`/number/separator match, `_clean_title` returns the light
cleanup (underscore runs to one space, whitespace runs to one space, trim)
unless that cleanup is empty, in which case the original title is returned
unchanged; the filename-like examples normalize as the claim states. -/
theorem claim_C2 :
    (∀ t : String, hasExtension t.toList = false → matchTrackNum t.toList = none →
      clean_title t =
        if (lightCleanL t.toList).isEmpty then t else String.mk (lightCleanL t.toList)) ∧
    clean_title "01 - Intro.mp3" = "Intro" ∧
    clean_title "Track 02_Chapter Two.m4b" = "Chapter Two" := by
  refine ⟨?_, rfl, rfl⟩
  intro t h1 h2
  have hb := h1
  unfold hasExtension at hb
  rw [Bool.or_eq_false_iff] at hb
  obtain ⟨he1, he2⟩ := hb
  have hstrip : stripExtension t.toList = t.toList := by
    unfold stripExtension
    rw [he1, he2]
    simp
  simp only [clean_title, hstrip, h1, h2, Option.isSome_none, Bool.or_self,
    Bool.false_eq_true, if_false]

/-- C2 witness: a gated title whose light cleanup is non-empty comes out
exactly lightly cleaned. -/
theorem claim_C2_witness :
    hasExtension "My_Book  Title".toList = false ∧
    matchTrackNum "My_Book  Title".toList = none ∧
    clean_title "My_Book  Title" = "My Book Title" := by
  refine ⟨rfl, rfl, ?_⟩
  rw [claim_C2.1 "My_Book  Title" rfl rfl]
  rfl

/-! ### Claim C9 -/

/-- C9: for any index outside `[0, len)` — negative or `≥ len`, in
particular `len` itself — `remove_chapter` and `update_chapter` at that
index, and `reorder_chapter` with that index in either position, are silent
no-ops leaving the model unchanged (the embedding is total, so nothing is
raised). -/
theorem claim_C9 (m : ChapterManager) (i : Int)
    (hi : ¬ (0 ≤ i ∧ i < (m.chapters.length : Int))) :
    remove_chapter m i = m ∧
    (∀ t s d, update_chapter m i t s d = m) ∧
    (∀ j : Int, reorder_chapter m i j = m ∧ reorder_chapter m j i = m) := by
  refine ⟨?_, ?_, ?_⟩
  · unfold remove_chapter
    rw [if_neg hi]
  · intro t s d
    unfold update_chapter
    rw [if_neg hi]
  · intro j
    constructor
    · unfold reorder_chapter
      rw [if_neg (by tauto)]
    · unfold reorder_chapter
      rw [if_neg (by tauto)]

/-- The one-chapter model used to witness C9. -/
def c9M : ChapterManager := ⟨[Chapter.make "A" 0 (some 1000) none]⟩

/-- C9 witness: index 1 equals the chapter count of `c9M`, and all three
operations at it are no-ops. -/
theorem claim_C9_witness :
    ¬ ((0 : Int) ≤ 1 ∧ (1 : Int) < (c9M.chapters.length : Int)) ∧
    remove_chapter c9M 1 = c9M ∧
    update_chapter c9M 1 (some "T") (some 5) (some 6) = c9M ∧
    reorder_chapter c9M 1 0 = c9M ∧
    reorder_chapter c9M 0 1 = c9M := by
  have hni : ¬ ((0 : Int) ≤ 1 ∧ (1 : Int) < (c9M.chapters.length : Int)) := by decide
  exact ⟨hni, (claim_C9 c9M 1 hni).1, (claim_C9 c9M 1 hni).2.1 (some "T") (some 5) (some 6),
    ((claim_C9 c9M 1 hni).2.2 0).1, ((claim_C9 c9M 1 hni).2.2 0).2⟩

/-! ### Claim C5 -/

/-- `A@0,dur=5000` and `B@3000`, no duration on B. -/
def c5M1 : ChapterManager :=
  ⟨[Chapter.make "A" 0 (some 5000) none, Chapter.make "B" 3000 none none]⟩

/-- `A@0,dur=5000` and `B@3000,dur=1000`. -/
def c5M2 : ChapterManager :=
  ⟨[Chapter.make "A" 0 (some 5000) none, Chapter.make "B" 3000 (some 1000) none]⟩

/-- C5 counterexample: the first model is claimed to report no overlap
warning, but validation reports exactly the overlap warning naming A and B:
the earlier chapter A has the known duration 5000 and `0 + 5000 > 3000`;
the missing duration on the later chapter B is irrelevant to the check. -/
theorem claim_C5_counterexample :
    validate c5M1 = ["Chapters \x27A\x27 and \x27B\x27 overlap"] := by
  rfl

/-- C5 (amended): both models report exactly one overlap warning naming A
and B. -/
theorem claim_C5 :
    validate c5M1 = [overlap_msg (Chapter.make "A" 0 (some 5000) none)
      (Chapter.make "B" 3000 none none)] ∧
    validate c5M2 = ["Chapters \x27A\x27 and \x27B\x27 overlap"] :=
  ⟨rfl, rfl⟩

/-! ### Claim C10 -/

/-- The one-chapter model used for C10. -/
def c10M : ChapterManager := ⟨[Chapter.make "X" 0 none none]⟩

/-- C10 counterexample: `auto_name_chapters` assigns the formatted pattern
text directly (`chapter.title = pattern.format(num=i)`), bypassing
`_clean_title`: with pattern `Part_{num}` the stored title is `Part_1`,
while the cleaned form of that supplied text is `Part 1`. -/
theorem claim_C10_counterexample :
    (auto_name_chapters c10M "Part_{num}").chapters.map Chapter.title = ["Part_1"] ∧
    clean_title "Part_1" = "Part 1" ∧
    ("Part_1" : String) ≠ "Part 1" := by
  refine ⟨rfl, rfl, by decide⟩

theorem modifyAt_getElem? {α : Type} (f : α → α) : ∀ (i : Nat) (l : List α),
    (modifyAt f i l)[i]? = (l[i]?).map f := by
  intro i
  induction i with
  | zero =>
    intro l
    cases l <;> simp [modifyAt]
  | succ i ih =>
    intro l
    cases l with
    | nil => rfl
    | cons a l => simp [modifyAt, ih]

/-- C10 (amended): construction (`add_chapter`) and `update_chapter` with a
title argument store the cleaned form of the supplied text, but
`auto_name_chapters` assigns the formatted pattern text verbatim, without
normalization. -/
theorem claim_C10 :
    (∀ (m : ChapterManager) t s d fp,
      (add_chapter m t s d fp).chapters.getLast? = some (Chapter.make t s d fp) ∧
      (Chapter.make t s d fp).title = clean_title t) ∧
    (∀ (m : ChapterManager) (i : Nat) t s d, i < m.chapters.length →
      ((update_chapter m (i : Int) (some t) s d).chapters[i]?).map Chapter.title =
        some (clean_title t)) ∧
    (∀ (m : ChapterManager) (pattern : String) (i : Nat), i < m.chapters.length →
      ((auto_name_chapters m pattern).chapters[i]?).map Chapter.title =
        some (String.mk (pyFormatNum pattern.toList (toString (i + 1)).toList))) := by
  refine ⟨?_, ?_, ?_⟩
  · intro m t s d fp
    exact ⟨List.getLast?_concat _, rfl⟩
  · intro m i t s d h
    unfold update_chapter
    rw [if_pos ⟨by omega, by omega⟩]
    simp only [Int.toNat_ofNat]
    rw [modifyAt_getElem?, List.getElem?_eq_getElem h]
    rcases s with _ | sv <;> rcases d with _ | dv <;> rfl
  · intro m pattern i h
    unfold auto_name_chapters
    simp only [List.getElem?_map]
    have he : m.chapters.enum[i]? = (m.chapters[i]?).map (fun a => (i, a)) := by
      simp [List.enum, List.getElem?_enumFrom]
    rw [he, List.getElem?_eq_getElem h]
    rfl

/-- C10 witness: at the concrete one-chapter model, update stores the
cleaned title and auto-naming stores the raw formatted pattern. -/
theorem claim_C10_witness :
    (0 : Nat) < c10M.chapters.length ∧
    (add_chapter c10M "A_b" 1 none none).chapters.getLast? =
      some (Chapter.make "A_b" 1 none none) ∧
    ((update_chapter c10M (0 : Nat) (some "T_x") none none).chapters[0]?).map Chapter.title =
      some (clean_title "T_x") ∧
    ((auto_name_chapters c10M "Part_{num}").chapters[0]?).map Chapter.title =
      some (String.mk (pyFormatNum "Part_{num}".toList (toString (0 + 1)).toList)) :=
  ⟨by decide, (claim_C10.1 c10M "A_b" 1 none none).1,
   claim_C10.2.1 c10M 0 "T_x" none none (by decide),
   claim_C10.2.2 c10M "Part_{num}" 0 (by decide)⟩

/-! ### Claim C3 -/

theorem pySortInsert_length {α : Type} (le : α → α → Bool) (a : α) :
    ∀ l, (pySortInsert le a l).length = l.length + 1 := by
  intro l
  induction l with
  | nil => rfl
  | cons b l ih =>
    unfold pySortInsert
    split
    · simpa using ih
    · simp

theorem pySort_length {α : Type} (le : α → α → Bool) (l : List α) :
    (pySort le l).length = l.length := by
  have key : ∀ (l acc : List α),
      (l.foldl (fun acc a => pySortInsert le a acc) acc).length = acc.length + l.length := by
    intro l
    induction l with
    | nil => simp
    | cons a l ih =>
      intro acc
      rw [List.foldl_cons, ih, pySortInsert_length]
      simp only [List.length_cons]
      omega
  have h := key l []
  simpa [pySort] using h

theorem pySortInsert_mem {α : Type} {le : α → α → Bool} {a x : α} :
    ∀ {l}, x ∈ pySortInsert le a l → x = a ∨ x ∈ l := by
  intro l
  induction l with
  | nil =>
    intro h
    simp [pySortInsert] at h
    exact Or.inl h
  | cons b l ih =>
    intro h
    unfold pySortInsert at h
    split at h
    · rcases List.mem_cons.mp h with h1 | h1
      · exact Or.inr (by simp [h1])
      · rcases ih h1 with h2 | h2
        · exact Or.inl h2
        · exact Or.inr (by simp [h2])
    · rcases List.mem_cons.mp h with h1 | h1
      · exact Or.inl h1
      · exact Or.inr h1

theorem pySortInsert_pairwise {α : Type} {le : α → α → Bool}
    (htot : ∀ a b, le a b = true ∨ le b a = true)
    (htr : ∀ a b c, le a b = true → le b c = true → le a c = true) (a : α) :
    ∀ {l}, List.Pairwise (fun x y => le x y = true) l →
      List.Pairwise (fun x y => le x y = true) (pySortInsert le a l) := by
  intro l
  induction l with
  | nil =>
    intro _
    simp [pySortInsert]
  | cons b l ih =>
    intro h
    rw [List.pairwise_cons] at h
    obtain ⟨hb, hl⟩ := h
    unfold pySortInsert
    split
    case isTrue hba =>
      rw [List.pairwise_cons]
      refine ⟨?_, ih hl⟩
      intro x hx
      rcases pySortInsert_mem hx with h1 | h1
      · rw [h1]; exact hba
      · exact hb x h1
    case isFalse hba =>
      have hab : le a b = true := by
        rcases htot a b with h1 | h1
        · exact h1
        · exact absurd h1 hba
      rw [List.pairwise_cons]
      constructor
      · intro x hx
        rcases List.mem_cons.mp hx with h1 | h1
        · rw [h1]; exact hab
        · exact htr a b x hab (hb x h1)
      · exact List.pairwise_cons.mpr ⟨hb, hl⟩

theorem pySort_pairwise {α : Type} {le : α → α → Bool}
    (htot : ∀ a b, le a b = true ∨ le b a = true)
    (htr : ∀ a b c, le a b = true → le b c = true → le a c = true) (l : List α) :
    List.Pairwise (fun x y => le x y = true) (pySort le l) := by
  have key : ∀ (l acc : List α), List.Pairwise (fun x y => le x y = true) acc →
      List.Pairwise (fun x y => le x y = true)
        (l.foldl (fun acc a => pySortInsert le a acc) acc) := by
    intro l
    induction l with
    | nil => exact fun acc h => h
    | cons a l ih =>
      intro acc h
      exact ih _ (pySortInsert_pairwise htot htr a h)
  exact key l [] List.Pairwise.nil

theorem parseStamps_length : ∀ {ts : List (String × String)} {l : List (Int × String)},
    parseStamps ts = Except.ok l → l.length = ts.length := by
  intro ts
  induction ts with
  | nil =>
    intro l h
    simp [parseStamps] at h
    simp [h]
  | cons p ts ih =>
    intro l h
    unfold parseStamps at h
    rcases hp : parse_timestamp p.1 with e | v
    · rw [hp] at h
      simp at h
    · rw [hp] at h
      rcases hr : parseStamps ts with e | l2
      · rw [hr] at h
        simp at h
      · rw [hr] at h
        simp only [Except.ok.injEq] at h
        rw [← h]
        simp [ih hr]

theorem assignDurations_length : ∀ l : List (Int × String),
    (assignDurations l).length = l.length
  | [] => rfl
  | [(_, _)] => rfl
  | (s1, t1) :: (s2, t2) :: rest => by
    show (Chapter.make t1 s1 (some (s2 - s1)) none ::
      assignDurations ((s2, t2) :: rest)).length = _
    simp [assignDurations_length ((s2, t2) :: rest)]

theorem assignDurations_starts : ∀ l : List (Int × String),
    (assignDurations l).map Chapter.start_ms = l.map Prod.fst
  | [] => rfl
  | [(_, _)] => rfl
  | (s1, t1) :: (s2, t2) :: rest => by
    show s1 :: (assignDurations ((s2, t2) :: rest)).map Chapter.start_ms = _
    rw [assignDurations_starts ((s2, t2) :: rest)]
    rfl

/-- The duration law of the claim: every chapter but the last has
`duration_ms = next.start_ms - start_ms`; the last has no duration. -/
def durationsChained : List Chapter → Prop
  | [] => True
  | [c] => c.duration_ms = none
  | a :: b :: rest => a.duration_ms = some (b.start_ms - a.start_ms) ∧
      durationsChained (b :: rest)

theorem assignDurations_chained : ∀ l : List (Int × String),
    durationsChained (assignDurations l)
  | [] => trivial
  | [(_, _)] => rfl
  | (s1, t1) :: (s2, t2) :: rest => by
    cases rest with
    | nil => exact ⟨rfl, rfl⟩
    | cons p rest2 =>
      obtain ⟨s3, t3⟩ := p
      exact ⟨rfl, assignDurations_chained ((s2, t2) :: (s3, t3) :: rest2)⟩

/-- C3: `create_from_timestamps` ignores the prior model contents (the
model is cleared), and on success the resulting chapters are as many as
the inputs, sorted by `start_ms` ascending, with each chapter's duration
equal to the next chapter's start minus its own and the last duration
unset; the concrete example orders A before B with duration 300000 ms on A
and none on B. -/
theorem claim_C3 :
    (∀ (m m2 : ChapterManager) (ts : List (String × String)),
      create_from_timestamps m ts = create_from_timestamps m2 ts) ∧
    (∀ (m m' : ChapterManager) (ts : List (String × String)),
      create_from_timestamps m ts = Except.ok m' →
      m'.chapters.length = ts.length ∧
      m'.chapters.Pairwise (fun a b => a.start_ms ≤ b.start_ms) ∧
      durationsChained m'.chapters) ∧
    create_from_timestamps ⟨[]⟩ [("00:05:00", "B"), ("00:00:00", "A")] =
      Except.ok ⟨[Chapter.make "A" 0 (some 300000) none,
        Chapter.make "B" 300000 none none]⟩ := by
  refine ⟨fun m m2 ts => rfl, ?_, by rfl⟩
  intro m m' ts h
  unfold create_from_timestamps at h
  rcases hp : parseStamps ts with e | parsed
  · rw [hp] at h
    simp at h
  · rw [hp] at h
    simp only [Except.ok.injEq] at h
    have htot : ∀ a b : Int × String,
        (decide (a.1 ≤ b.1)) = true ∨ (decide (b.1 ≤ a.1)) = true := by
      intro a b
      simp only [decide_eq_true_eq]
      omega
    have htr : ∀ a b c : Int × String, (decide (a.1 ≤ b.1)) = true →
        (decide (b.1 ≤ c.1)) = true → (decide (a.1 ≤ c.1)) = true := by
      intro a b c h1 h2
      simp only [decide_eq_true_eq] at h1 h2 ⊢
      omega
    refine ⟨?_, ?_, ?_⟩
    · rw [← h]
      show (assignDurations _).length = ts.length
      rw [assignDurations_length, pySort_length, parseStamps_length hp]
    · rw [← h]
      have hP := pySort_pairwise htot htr parsed
      have h1 : (pySort (fun a b => decide (a.1 ≤ b.1)) parsed).Pairwise
          (fun a b => a.1 ≤ b.1) := by
        refine hP.imp ?_
        intro a b hab
        simpa using hab
      have h2 : ((assignDurations (pySort (fun a b => decide (a.1 ≤ b.1)) parsed)).map
          Chapter.start_ms).Pairwise (fun a b => a ≤ b) := by
        rw [assignDurations_starts]
        exact List.pairwise_map.mpr h1
      exact List.pairwise_map.mp h2
    · rw [← h]
      exact assignDurations_chained _

/-- The resulting model of the C3 example, used for the witness. -/
def c3M : ChapterManager :=
  ⟨[Chapter.make "A" 0 (some 300000) none, Chapter.make "B" 300000 none none]⟩

/-- C3 witness: the structural conclusions instantiated at the concrete
example input. -/
theorem claim_C3_witness :
    c3M.chapters.length =
      ([("00:05:00", "B"), ("00:00:00", "A")] : List (String × String)).length ∧
    c3M.chapters.Pairwise (fun a b => a.start_ms ≤ b.start_ms) ∧
    durationsChained c3M.chapters :=
  claim_C3.2.1 ⟨[]⟩ c3M [("00:05:00", "B"), ("00:00:00", "A")] (by rfl)

/-! ### Claim C4 -/

/-- Recognize the overlap warnings among the validation warnings: they are
exactly the ones starting `Chapters '`. -/
def isOverlapWarning (s : String) : Bool :=
  "Chapters \x27".toList.isPrefixOf s.toList

/-- The overlap warnings the claim specifies: over adjacent pairs of the
sorted copy, one warning naming both titles whenever the earlier chapter
has a known (present) duration and `start_ms + duration_ms > later.start_ms`. -/
def spec_overlap_warnings : List Chapter → List String
  | a :: b :: rest =>
    (if a.duration_ms ≠ none ∧ a.start_ms + a.duration_ms.getD 0 > b.start_ms then
      [overlap_msg a b]
    else []) ++ spec_overlap_warnings (b :: rest)
  | _ => []

theorem strToList_append (a b : String) : (a ++ b).toList = a.toList ++ b.toList := rfl

theorem isOverlapWarning_chapter_msg (t u : String) :
    isOverlapWarning ("Chapter " ++ t ++ u) = false := by
  unfold isOverlapWarning
  have h : ("Chapter " ++ t ++ u).toList =
      'C' :: 'h' :: 'a' :: 'p' :: 't' :: 'e' :: 'r' :: ' ' :: (t.toList ++ u.toList) := rfl
  rw [h]
  have hpat : ("Chapters \x27".toList) =
      'C' :: 'h' :: 'a' :: 'p' :: 't' :: 'e' :: 'r' :: 's' :: ' ' :: '\x27' :: [] := by
    decide
  rw [hpat]
  simp [List.isPrefixOf_cons₂]

theorem isOverlapWarning_overlap_msg (a b : Chapter) :
    isOverlapWarning (overlap_msg a b) = true := by
  unfold isOverlapWarning overlap_msg
  rw [strToList_append]
  simp [List.isPrefixOf_iff_prefix]

theorem mem_overlap_warnings : ∀ (l : List Chapter) (s : String),
    s ∈ overlap_warnings l → ∃ a b, s = overlap_msg a b
  | [], s => by
    intro h
    simp [overlap_warnings] at h
  | [c], s => by
    intro h
    simp [overlap_warnings] at h
  | a :: b :: rest, s => by
    intro h
    unfold overlap_warnings at h
    rcases List.mem_append.mp h with h1 | h1
    · split at h1
      · split at h1
        · simp at h1
          exact ⟨a, b, h1⟩
        · simp at h1
      · simp at h1
    · exact mem_overlap_warnings (b :: rest) s h1

theorem overlap_eq_spec : ∀ (l : List Chapter),
    l.Pairwise (fun a b => a.start_ms ≤ b.start_ms) →
    overlap_warnings l = spec_overlap_warnings l
  | [] => fun _ => rfl
  | [c] => fun _ => rfl
  | a :: b :: rest => by
    intro h
    have hab : a.start_ms ≤ b.start_ms := (List.pairwise_cons.mp h).1 b (by simp)
    have htail := (List.pairwise_cons.mp h).2
    unfold overlap_warnings spec_overlap_warnings
    rw [overlap_eq_spec (b :: rest) htail]
    congr 1
    rcases hd : a.duration_ms with _ | d
    · simp [pyTruthyInt, hd]
    · by_cases hz : d = 0
      · subst hz
        have hcond : ¬ ((some (0 : Int)) ≠ none ∧
            a.start_ms + (some (0 : Int)).getD 0 > b.start_ms) := by
          rintro ⟨_, hgt⟩
          simp at hgt
          omega
        rw [if_neg hcond]
        simp [pyTruthyInt]
      · have ht : pyTruthyInt (some d) = true := by
          simp [pyTruthyInt, hz]
        rw [ht]
        simp only [if_true]
        rw [show (some d).getD 0 = d from rfl]
        by_cases hgt : a.start_ms + d > b.start_ms
        · rw [if_pos hgt, if_pos ⟨by simp, hgt⟩]
        · rw [if_neg hgt, if_neg (by rintro ⟨_, h2⟩; exact hgt h2)]

theorem validate_filter_overlap (m : ChapterManager) :
    (validate m).filter isOverlapWarning =
      overlap_warnings (pySort (fun a b => decide (a.start_ms ≤ b.start_ms)) m.chapters) := by
  unfold validate
  by_cases hemp : m.chapters.isEmpty
  · rw [if_pos hemp]
    rw [List.isEmpty_iff] at hemp
    rw [hemp]
    have : isOverlapWarning "No chapters defined" = false := by decide
    simp [List.filter, this, pySort, overlap_warnings]
  · rw [if_neg hemp]
    rw [List.filter_append, List.filter_append]
    have h1 : (m.chapters.enum.filterMap (fun ic =>
        if (pyStripList ic.2.title.toList).isEmpty then
          some ("Chapter " ++ toString (ic.1 + 1) ++ " has empty title")
        else none)).filter isOverlapWarning = [] := by
      rw [List.filter_eq_nil_iff]
      intro s hs
      obtain ⟨ic, _, hf⟩ := List.mem_filterMap.mp hs
      split at hf
      · simp only [Option.some.injEq] at hf
        rw [← hf]
        simp [isOverlapWarning_chapter_msg]
      · simp at hf
    have h2 : (m.chapters.enum.flatMap (fun ic =>
        (if ic.2.start_ms < 0 then
          ["Chapter " ++ toString (ic.1 + 1) ++ " has negative start time"] else []) ++
        (match ic.2.duration_ms with
         | some d =>
           if d < 0 then ["Chapter " ++ toString (ic.1 + 1) ++ " has negative duration"]
           else []
         | none => []))).filter isOverlapWarning = [] := by
      rw [List.filter_eq_nil_iff]
      intro s hs
      obtain ⟨ic, _, hf⟩ := List.mem_flatMap.mp hs
      rcases List.mem_append.mp hf with hf1 | hf1
      · simp at hf1
        rw [hf1.2]
        simp [isOverlapWarning_chapter_msg]
      · rcases hd : ic.2.duration_ms with _ | d
        · rw [hd] at hf1
          simp at hf1
        · rw [hd] at hf1
          simp at hf1
          rw [hf1.2]
          simp [isOverlapWarning_chapter_msg]
    have h3 : (overlap_warnings (pySort (fun a b => decide (a.start_ms ≤ b.start_ms))
        m.chapters)).filter isOverlapWarning =
        overlap_warnings (pySort (fun a b => decide (a.start_ms ≤ b.start_ms)) m.chapters) := by
      rw [List.filter_eq_self]
      intro s hs
      obtain ⟨a, b, hab⟩ := mem_overlap_warnings _ s hs
      rw [hab]
      exact isOverlapWarning_overlap_msg a b
    rw [h1, h2, h3]
    rfl

/-- C4: the overlap warnings `validate` emits are exactly one warning
(naming both titles) for each adjacent pair of the copy of the chapter list
sorted by `start_ms` whose earlier chapter has a known duration and
`earlier.start_ms + earlier.duration_ms > later.start_ms`, in order, and no
other emitted warning is an overlap warning.  `validate` is a total pure
function of the model in this embedding, so it neither raises nor mutates
the model (it sorts a copy). -/
theorem claim_C4 (m : ChapterManager) :
    (validate m).filter isOverlapWarning =
      spec_overlap_warnings (pySort (fun a b => decide (a.start_ms ≤ b.start_ms))
        m.chapters) := by
  rw [validate_filter_overlap]
  apply overlap_eq_spec
  have htot : ∀ a b : Chapter, (decide (a.start_ms ≤ b.start_ms)) = true ∨
      (decide (b.start_ms ≤ a.start_ms)) = true := by
    intro a b
    simp only [decide_eq_true_eq]
    omega
  have htr : ∀ a b c : Chapter, (decide (a.start_ms ≤ b.start_ms)) = true →
      (decide (b.start_ms ≤ c.start_ms)) = true →
      (decide (a.start_ms ≤ c.start_ms)) = true := by
    intro a b c h1 h2
    simp only [decide_eq_true_eq] at h1 h2 ⊢
    omega
  have h := pySort_pairwise htot htr m.chapters
  refine h.imp ?_
  intro a b hab
  simpa using hab

/-! ### Claim C6 -/

/-- The chapter block as the claim describes it: end offset is
`start_ms + duration_ms` when the duration is present, else `start_ms`. -/
def claim_ffmpeg_block (c : Chapter) : String :=
  let end_ms : Int :=
    match c.duration_ms with
    | some d => c.start_ms + d
    | none => c.start_ms
  "[CHAPTER]\nTIMEBASE=1/1000\nSTART=" ++ toString c.start_ms ++
    "\nEND=" ++ toString end_ms ++ "\ntitle=" ++ c.title ++ "\n"

/-- The render as the claim describes it: always a header line, blocks in
insertion order, consecutive blocks separated by one blank line. -/
def claim_ffmpeg_metadata (m : ChapterManager) : String :=
  ";FFMETADATA1\n" ++ String.intercalate "\n" (m.chapters.map claim_ffmpeg_block)

/-- The two-chapter model used for the C6 counterexample. -/
def c6M : ChapterManager :=
  ⟨[Chapter.make "A" 0 (some 1000) none, Chapter.make "B" 1000 none none]⟩

/-- C6 counterexample: consecutive blocks are not separated by a blank line
(each block ends with a single newline and the next starts immediately),
and an empty model renders as the empty string with no header line, so the
claimed rendering differs from the code's on both inputs. -/
theorem claim_C6_counterexample :
    to_ffmpeg_metadata c6M ≠ claim_ffmpeg_metadata c6M ∧
    to_ffmpeg_metadata ⟨[]⟩ ≠ claim_ffmpeg_metadata ⟨[]⟩ := by
  constructor <;> decide

theorem to_ffmpeg_format_eq_claim_block (c : Chapter) :
    to_ffmpeg_format c = claim_ffmpeg_block c := by
  rcases hd : c.duration_ms with _ | d
  · simp [to_ffmpeg_format, claim_ffmpeg_block, hd]
  · by_cases hz : d = 0
    · subst hz
      simp [to_ffmpeg_format, claim_ffmpeg_block, hd]
    · simp [to_ffmpeg_format, claim_ffmpeg_block, hd, hz]

/-- C6 (amended): for every non-empty model the render is the header line
followed by the chapter blocks in insertion order, each block carrying the
millisecond timebase, the start offset, the end offset
(`start_ms + duration_ms` when a duration is present, else `start_ms`) and
the title; consecutive blocks abut directly, each ending in a single
newline; an empty model renders as the empty string with no header. -/
theorem claim_C6 (m : ChapterManager) :
    to_ffmpeg_metadata m =
      if m.chapters.isEmpty then ""
      else ";FFMETADATA1\n" ++ String.join (m.chapters.map claim_ffmpeg_block) := by
  unfold to_ffmpeg_metadata
  by_cases h : m.chapters.isEmpty
  · rw [if_pos h, if_pos h]
  · rw [if_neg h, if_neg h]
    rw [List.map_congr_left (fun c _ => to_ffmpeg_format_eq_claim_block c)]

/-! ### Claim C7 -/

/-- The MDTA tag string as the claim describes it: the 1-based chapter
number, then the canonical H/M/S/ms decomposition of the start offset,
each zero-padded to 2 digits (3 for milliseconds), then the title. -/
def spec_mdta (i : Int) (c : Chapter) : String :=
  "Menu " ++ toString i ++ "# _" ++ String.mk (zpadL 2 (c.start_ms.toNat / 3600000)) ++
    "_" ++ String.mk (zpadL 2 (c.start_ms.toNat % 3600000 / 60000)) ++
    "_" ++ String.mk (zpadL 2 (c.start_ms.toNat % 60000 / 1000)) ++
    "_" ++ String.mk (zpadL 3 (c.start_ms.toNat % 1000)) ++ ": " ++ c.title

/-- C7: for every chapter with a non-negative start offset, rendered at any
1-based position `i`, the MDTA render is exactly
`Menu <i># _<HH>_<MM>_<SS>_<mmm>: <title>` with the canonical decomposition
of `start_ms` zero-padded to widths 2/2/2/3; in particular the chapter at
`start_ms = 33970954` rendered 3rd yields `Menu 3# _09_26_10_954: <title>`. -/
theorem claim_C7 :
    (∀ (i : Int) (c : Chapter), 0 ≤ c.start_ms →
      format_chapter_mdta i c = spec_mdta i c) ∧
    format_chapter_mdta 3 (Chapter.make "Intro" 33970954 none none) =
      "Menu 3# _09_26_10_954: Intro" := by
  refine ⟨?_, by rfl⟩
  intro i c h
  obtain ⟨n, hn⟩ : ∃ n : Nat, c.start_ms = (n : Int) :=
    ⟨c.start_ms.toNat, (Int.toNat_of_nonneg h).symm⟩
  have hms : (n : Int) % 1000 = ((n % 1000 : Nat) : Int) := by omega
  have hts : (n : Int) / 1000 = ((n / 1000 : Nat) : Int) := by omega
  have hh : ((n / 1000 : Nat) : Int) / 3600 = ((n / 3600000 : Nat) : Int) := by omega
  have hm : (((n / 1000 : Nat) : Int) % 3600) / 60 =
      ((n % 3600000 / 60000 : Nat) : Int) := by omega
  have hs : ((n / 1000 : Nat) : Int) % 60 = ((n % 60000 / 1000 : Nat) : Int) := by omega
  simp only [format_chapter_mdta, spec_mdta, pyFmtZero, hn]
  rw [hts, hh, hm, hs, hms]
  have hnonneg : ∀ k : Nat, ¬ ((k : Int) < 0) := fun k => by omega
  rw [if_neg (hnonneg _), if_neg (hnonneg _), if_neg (hnonneg _), if_neg (hnonneg _)]
  simp only [Int.toNat_ofNat]

/-- C7 witness: the general statement instantiated at the concrete example
chapter. -/
theorem claim_C7_witness :
    (0 : Int) ≤ (Chapter.make "Intro" 33970954 none none).start_ms ∧
    format_chapter_mdta 3 (Chapter.make "Intro" 33970954 none none) =
      spec_mdta 3 (Chapter.make "Intro" 33970954 none none) :=
  ⟨by decide, claim_C7.1 3 (Chapter.make "Intro" 33970954 none none) (by decide)⟩

end M4B
